import Mathlib

/-!
# inscount0MPH: a Pin tool counting basic blocks, instructions and memory operands

Shallow embedding of `src/inscount0MPH.cpp`.

* The five `static UINT32` globals are the fields of `Counters`; every
  arithmetic operation on them is taken modulo `2 ^ 32`.
* The host engine (Pin) is external.  What the tool asks of it is recorded as
  data: an inserted analysis call is a `Call`, and executing an instrumented
  code unit fires its calls (`runCall`), a predicated call only when the
  predicate of the instruction is true.
* `main` is a function from its inputs to the list of actions it performs and
  the way it ends (a returned value, no return, or undefined behaviour after a
  write outside `inputs`); `Fini` is a function from the counters, the captured
  arguments and the formatted time to the text written to the output file.
-/

namespace InsCount

/-! ## Counters and the runtime callbacks -/

/-- Number of values of a `UINT32`. -/
def UINT32_SIZE : Nat := 4294967296

/-- The global counters of the tool, all `static UINT32 ... = 0`. -/
structure Counters where
  bblcount : Nat
  inscount1 : Nat
  inscount0 : Nat
  memReadCount : Nat
  memWriteCount : Nat
deriving DecidableEq, Repr

/-- The counters at program start: every global is initialised to `0`. -/
def Counters.init : Counters :=
  { bblcount := 0, inscount1 := 0, inscount0 := 0, memReadCount := 0, memWriteCount := 0 }

/-- Source: `void docount1(UINT32 c) { inscount1 += c; }`. -/
def docount1 (c : Nat) (s : Counters) : Counters :=
  { s with inscount1 := (s.inscount1 + c) % UINT32_SIZE }

/-- Source: `void docount0() { inscount0++; }`. -/
def docount0 (s : Counters) : Counters :=
  { s with inscount0 := (s.inscount0 + 1) % UINT32_SIZE }

/-- Source: `void MemRead(VOID *ip, VOID *addr) { ++memReadCount; }`. -/
def MemRead (_ip _addr : Nat) (s : Counters) : Counters :=
  { s with memReadCount := (s.memReadCount + 1) % UINT32_SIZE }

/-- Source: `void MemWrite(VOID *ip, VOID *addr) { ++memWriteCount; }`. -/
def MemWrite (_ip _addr : Nat) (s : Counters) : Counters :=
  { s with memWriteCount := (s.memWriteCount + 1) % UINT32_SIZE }

/-! ## Inserted analysis calls -/

/-- Where an analysis call is attached relative to its code unit. -/
inductive IPOINT where
  | BEFORE
  | AFTER
deriving DecidableEq, Repr

/-- The analysis routine of an inserted call together with its static
arguments: `docount1` with its `IARG_UINT32` value, `docount0` with none,
`MemRead` and `MemWrite` with `IARG_INST_PTR` and `IARG_MEMORYOP_EA` of the
given memory operand index. -/
inductive Probe where
  | docount1 (c : Nat)
  | docount0
  | MemRead (memOp : Nat)
  | MemWrite (memOp : Nat)
deriving DecidableEq, Repr

/-- One inserted analysis call.  `predicated` is true for
`INS_InsertPredicatedCall` and false for `INS_InsertCall` and
`BBL_InsertCall`. -/
structure Call where
  ipoint : IPOINT
  predicated : Bool
  probe : Probe
deriving DecidableEq, Repr

/-- Fire one probe: the analysis routine runs with its arguments resolved,
the instruction pointer `ip` and the effective address of operand `memOp`
taken from `ea`. -/
def runProbe (ip : Nat) (ea : List Nat) (p : Probe) (s : Counters) : Counters :=
  match p with
  | .docount1 c => docount1 c s
  | .docount0 => docount0 s
  | .MemRead memOp => MemRead ip (ea.getD memOp 0) s
  | .MemWrite memOp => MemWrite ip (ea.getD memOp 0) s

/-- Fire one inserted call when its code unit executes with predicate value
`pred`: a predicated call is skipped when the predicate is false, any other
call always runs. -/
def runCall (pred : Bool) (ip : Nat) (ea : List Nat) (c : Call) (s : Counters) : Counters :=
  if c.predicated && !pred then s else runProbe ip ea c.probe s

/-- Fire the calls of one code unit in insertion order. -/
def runCalls (pred : Bool) (ip : Nat) (ea : List Nat) (cs : List Call) (s : Counters) : Counters :=
  cs.foldl (fun acc c => runCall pred ip ea c acc) s

/-! ## Trace instrumentation: `prog_trace` -/

/-- A basic block as `prog_trace` sees it: `BBL_NumIns`. -/
structure BBL where
  numIns : Nat
deriving DecidableEq, Repr

/-- Source: `prog_trace`.  For each block of the trace, in order:
`bblcount++`, then `BBL_InsertCall(bbl, IPOINT_BEFORE, docount1, IARG_UINT32,
BBL_NumIns(bbl), IARG_END)`.  The result is the new counters and the log of
inserted calls, each with the block it was attached to. -/
def prog_trace : List BBL → Counters → Counters × List (BBL × Call)
  | [], s => (s, [])
  | bbl :: rest, s =>
    let s1 := { s with bblcount := (s.bblcount + 1) % UINT32_SIZE }
    let inserted : BBL × Call := (bbl, ⟨IPOINT.BEFORE, false, Probe.docount1 bbl.numIns⟩)
    let r := prog_trace rest s1
    (r.1, inserted :: r.2)

/-- One block execution event: the block runs, so the call inserted before it
fires.  Block-level calls are not predicated. -/
def execBBL (e : BBL × Call) (s : Counters) : Counters :=
  runCall true 0 [] e.2 s

/-- A sequence of block execution events. -/
def runBlocks (events : List (BBL × Call)) (s : Counters) : Counters :=
  events.foldl (fun acc e => execBBL e acc) s

/-- Sum of the static instruction counts of the blocks of the events. -/
def executedInstructions (events : List (BBL × Call)) : Nat :=
  (events.map (fun e => e.1.numIns)).sum

/-! ## Instruction instrumentation: `Instruction` -/

/-- One memory operand of an instruction: `INS_MemoryOperandIsRead` and
`INS_MemoryOperandIsWritten`. -/
structure MemOperand where
  isRead : Bool
  isWritten : Bool
deriving DecidableEq, Repr

/-- An instruction as `Instruction` sees it: its memory operands, so that
`INS_MemoryOperandCount` is the length of the list. -/
structure INS where
  memOps : List MemOperand
deriving DecidableEq, Repr

/-- The loop of `Instruction` from operand index `memOp` on: a predicated
`MemRead` call when the operand is read, then a predicated `MemWrite` call
when it is written. -/
def InstructionLoop : List MemOperand → Nat → List Call
  | [], _ => []
  | op :: rest, memOp =>
    (if op.isRead then [⟨IPOINT.BEFORE, true, Probe.MemRead memOp⟩] else []) ++
    ((if op.isWritten then [⟨IPOINT.BEFORE, true, Probe.MemWrite memOp⟩] else []) ++
      InstructionLoop rest (memOp + 1))

/-- Source: `Instruction`.  The calls it inserts, in order: those of the
operand loop, then `INS_InsertCall(ins, IPOINT_BEFORE, docount0, IARG_END)`. -/
def Instruction (ins : INS) : List Call :=
  InstructionLoop ins.memOps 0 ++ [⟨IPOINT.BEFORE, false, Probe.docount0⟩]

/-- One execution of an instruction: its predicate value, its address and the
effective addresses of its memory operands. -/
structure InsExec where
  ins : INS
  pred : Bool
  ip : Nat
  ea : List Nat
deriving DecidableEq, Repr

/-- The instruction executes: the calls `Instruction` inserted for it fire. -/
def execINS (x : InsExec) (s : Counters) : Counters :=
  runCalls x.pred x.ip x.ea (Instruction x.ins) s

/-- Every instruction of the stream executes once, in order. -/
def runStream (xs : List InsExec) (s : Counters) : Counters :=
  xs.foldl (fun acc x => execINS x acc) s

/-- Number of operands flagged as read over a list of operands. -/
def readCount (ops : List MemOperand) : Nat :=
  (ops.filter (fun op => op.isRead)).length

/-- Number of operands flagged as written over a list of operands. -/
def writeCount (ops : List MemOperand) : Nat :=
  (ops.filter (fun op => op.isWritten)).length

/-- The number `K` of operands flagged as read in a stream. -/
def streamReads (xs : List InsExec) : Nat :=
  (xs.map (fun x => readCount x.ins.memOps)).sum

/-- The number `L` of operands flagged as written in a stream. -/
def streamWrites (xs : List InsExec) : Nat :=
  (xs.map (fun x => writeCount x.ins.memOps)).sum

/-- Number of inserted calls whose routine is `MemRead`. -/
def memReadProbes (cs : List Call) : Nat :=
  (cs.filter (fun c => match c.probe with | .MemRead _ => true | _ => false)).length

/-- Number of inserted calls whose routine is `MemWrite`. -/
def memWriteProbes (cs : List Call) : Nat :=
  (cs.filter (fun c => match c.probe with | .MemWrite _ => true | _ => false)).length

/-! ## Runs of counter-changing steps -/

/-- A step that can change a counter: one call of `prog_trace` on a trace, or
one call of a runtime callback. -/
inductive Step where
  | prog_trace (trace : List BBL)
  | docount1 (c : Nat)
  | docount0
  | MemRead (ip addr : Nat)
  | MemWrite (ip addr : Nat)
deriving DecidableEq, Repr

/-- Effect of one step on the counters. -/
def step (s : Counters) : Step → Counters
  | .prog_trace trace => (prog_trace trace s).1
  | .docount1 c => docount1 c s
  | .docount0 => docount0 s
  | .MemRead ip addr => MemRead ip addr s
  | .MemWrite ip addr => MemWrite ip addr s

/-- A run: the steps applied in order. -/
def run (steps : List Step) (s : Counters) : Counters :=
  steps.foldl step s

/-- Every counter of `s` is at most the same counter of `t`. -/
def Counters.le (s t : Counters) : Prop :=
  s.bblcount ≤ t.bblcount ∧ s.inscount1 ≤ t.inscount1 ∧ s.inscount0 ≤ t.inscount0 ∧
    s.memReadCount ≤ t.memReadCount ∧ s.memWriteCount ≤ t.memWriteCount

instance (s t : Counters) : Decidable (Counters.le s t) := by
  unfold Counters.le; infer_instance

/-- The step does not carry the counter it updates past the largest
`UINT32` value. -/
def noWrap (s : Counters) : Step → Prop
  | .prog_trace trace => s.bblcount + trace.length < UINT32_SIZE
  | .docount1 c => s.inscount1 + c < UINT32_SIZE
  | .docount0 => s.inscount0 + 1 < UINT32_SIZE
  | .MemRead _ _ => s.memReadCount + 1 < UINT32_SIZE
  | .MemWrite _ _ => s.memWriteCount + 1 < UINT32_SIZE

instance (s : Counters) (st : Step) : Decidable (noWrap s st) := by
  cases st <;> unfold noWrap <;> infer_instance

/-! ## The report: `Fini` -/

/-- The loop of `Fini` over `inputs`: `OutFile << *it << " "` for every
element of the vector. -/
def echoInputs (inputs : List String) (out : String) : String :=
  inputs.foldl (fun o it => o ++ it ++ " ") out

/-- The text `Fini` has written when the benchmark line is complete, before
its `endl`; `buffer` is the time text produced by `strftime`. -/
def FiniUpToBenchmark (buffer : String) (inputs : List String) : String :=
  let o0 := ""
  let o1 := o0 ++ "// Benchmark Characteristics" ++ "\n"
  let o2 := o1 ++ "// Time: " ++ buffer ++ "\n"
  let o3 := o2 ++ "// Benchmark: "
  echoInputs inputs o3

/-- The benchmark line of the report, without its `endl`: what `Fini` writes
from `"// Benchmark: "` to the end of the loop over `inputs`. -/
def FiniBenchmarkLine (inputs : List String) : String :=
  echoInputs inputs ("" ++ "// Benchmark: ")

/-- Source: `Fini`.  The text written to `OutFile` and the counters
afterwards.  Integers are written in decimal: `ios::showbase` only affects
octal and hexadecimal output. -/
def Fini (buffer : String) (inputs : List String) (s : Counters) : String × Counters :=
  let o4 := FiniUpToBenchmark buffer inputs
  let o5 := o4 ++ "\n"
  let o6 := o5 ++ " " ++ "\n"
  let o7 := o6 ++ "// Program Stats" ++ "\n"
  let o8 := o7 ++ "Basic Blocks: " ++ toString s.bblcount ++ "\n"
  let o9 := o8 ++ "Memory Reads: " ++ toString s.memReadCount ++ "\n"
  let o10 := o9 ++ "Memory Writes: " ++ toString s.memWriteCount ++ "\n"
  let o11 := o10 ++ "Total Instructions: " ++ toString s.inscount1 ++ "\n"
  (o11, s)

/-! ## Startup: `Usage` and `main` -/

/-- Source: `vector <string> inputs (10);` -/
def inputsInit : List String := List.replicate 10 ""

/-- The argument-capture loop of `main` from position `idx` on, with `vidx`
the next slot: the writes `inputs[vidx] = argv[idx]` it performs, in order,
as pairs of the index written and the value. -/
def captureWrites : List String → Nat → Nat → List (Nat × String)
  | [], _, _ => []
  | arg :: rest, idx, vidx =>
    if idx > 5 then (vidx, arg) :: captureWrites rest (idx + 1) (vidx + 1)
    else captureWrites rest (idx + 1) vidx

/-- The vector after a list of writes; `none` when a write falls outside the
vector, where the behaviour of the program is undefined. -/
def storeInputs : List (Nat × String) → List String → Option (List String)
  | [], inputs => some inputs
  | w :: ws, inputs =>
    if w.1 < inputs.length then storeInputs ws (inputs.set w.1 w.2) else none

/-- The content of `inputs` after the capture loop of `main`. -/
def captureInputs (argv : List String) : Option (List String) :=
  storeInputs (captureWrites argv 0 0) inputsInit

/-- Source: `Usage`.  The text written to `cerr` and the value returned;
`knobSummary` is `KNOB_BASE::StringKnobSummary()`. -/
def Usage (knobSummary : String) : String × Int :=
  ("Performs basic benchmarking for input programs" ++ "\n" ++ ("\n" ++ knobSummary ++ "\n"), -1)

/-- The three functions `main` registers with the host engine. -/
inductive Callback where
  | prog_trace
  | Instruction
  | Fini
deriving DecidableEq, Repr

/-- What `main` does, as seen from outside. -/
inductive Action where
  | cerr (text : String)
  | setInput (vidx : Nat) (arg : String)
  | openOutFile (path : String)
  | TRACE_AddInstrumentFunction (f : Callback)
  | INS_AddInstrumentFunction (f : Callback)
  | PIN_AddFiniFunction (f : Callback)
  | PIN_StartProgram
deriving DecidableEq, Repr

/-- How a run of `main` ends: it returns a value, or `PIN_StartProgram` takes
over and never comes back, or a write outside `inputs` has made the behaviour
of the program undefined. -/
inductive Outcome where
  | returned (code : Int)
  | notReturned
  | undefined
deriving DecidableEq, Repr

/-- Source: `main`.  `pinInitError` is the result of `PIN_Init`,
`knobOutputFile` the value of `KnobOutputFile`, and `startReturns` tells
whether `PIN_StartProgram` comes back (the source notes it never does).  The
result is the actions performed, in order, and how the run ends.  When the
capture loop writes outside the 10-element vector (`captureInputs` is `none`)
the behaviour is undefined from that write on: only the writes before it are
listed and nothing after the loop is. -/
def main (pinInitError : Bool) (knobSummary knobOutputFile : String) (startReturns : Bool)
    (argv : List String) : List Action × Outcome :=
  if pinInitError then
    ([Action.cerr (Usage knobSummary).1], Outcome.returned (Usage knobSummary).2)
  else
    match captureInputs argv with
    | none =>
      (((captureWrites argv 0 0).takeWhile (fun w => decide (w.1 < inputsInit.length))).map
          (fun w => Action.setInput w.1 w.2),
        Outcome.undefined)
    | some _ =>
      ((captureWrites argv 0 0).map (fun w => Action.setInput w.1 w.2) ++
        [Action.openOutFile knobOutputFile,
         Action.TRACE_AddInstrumentFunction Callback.prog_trace,
         Action.INS_AddInstrumentFunction Callback.Instruction,
         Action.PIN_AddFiniFunction Callback.Fini,
         Action.PIN_StartProgram],
        if startReturns then Outcome.returned 0 else Outcome.notReturned)

/-- The action is one of the steps that follow a successful `PIN_Init`. -/
def Action.afterInit : Action → Bool
  | .cerr _ => false
  | _ => true

/-! ## Texts the report is compared with -/

/-- The strings of a list written one after the other, each followed by a
single space: the echoed arguments as the specification describes them. -/
def spaceJoined : List String → String
  | [] => ""
  | a :: rest => a ++ " " ++ spaceJoined rest

/-- A run of `k` spaces. -/
def spaces : Nat → String
  | 0 => ""
  | k + 1 => " " ++ spaces k

/-! ## Auxiliary lemmas -/

theorem prog_trace_snd (trace : List BBL) (s : Counters) :
    (prog_trace trace s).2 =
      trace.map (fun b => (b, (⟨IPOINT.BEFORE, false, Probe.docount1 b.numIns⟩ : Call))) := by
  induction trace generalizing s with
  | nil => rfl
  | cons b rest ih => simp [prog_trace, ih]

theorem prog_trace_fst (trace : List BBL) (s : Counters) :
    (prog_trace trace s).1 =
      { s with bblcount := (fun b => (b + 1) % 4294967296)^[trace.length] s.bblcount } := by
  induction trace generalizing s with
  | nil => rfl
  | cons b rest ih => simp [prog_trace, ih, UINT32_SIZE]

theorem iterate_incr (n x : Nat) (h : x < 4294967296) :
    (fun b => (b + 1) % 4294967296)^[n] x = (x + n) % 4294967296 := by
  induction n generalizing x with
  | zero => simp; omega
  | succ k ih =>
    rw [Function.iterate_succ_apply, ih _ (Nat.mod_lt _ (by decide))]
    omega

theorem runBlocks_cons (e : BBL × Call) (events : List (BBL × Call)) (s : Counters) :
    runBlocks (e :: events) s = runBlocks events (execBBL e s) := rfl

theorem runBlocks_inscount1 (events : List (BBL × Call)) (s : Counters)
    (hs : s.inscount1 < UINT32_SIZE)
    (h : ∀ e ∈ events, e.2 = ⟨IPOINT.BEFORE, false, Probe.docount1 e.1.numIns⟩) :
    (runBlocks events s).inscount1 = (s.inscount1 + executedInstructions events) % UINT32_SIZE := by
  induction events generalizing s with
  | nil =>
    simp only [runBlocks, executedInstructions, UINT32_SIZE] at *
    simp
    omega
  | cons e rest ih =>
    have he := h e (List.mem_cons_self _ _)
    have hrest : ∀ x ∈ rest, x.2 = ⟨IPOINT.BEFORE, false, Probe.docount1 x.1.numIns⟩ :=
      fun x hx => h x (List.mem_cons_of_mem _ hx)
    have hstep : execBBL e s = docount1 e.1.numIns s := by
      simp [execBBL, runCall, runProbe, he]
    rw [runBlocks_cons, hstep, ih _ _ hrest]
    · simp only [docount1, executedInstructions, UINT32_SIZE, List.map_cons, List.sum_cons]
      omega
    · simp only [docount1, UINT32_SIZE]
      omega

theorem runBlocks_replicate_docount1 (n c : Nat) (s : Counters) (hs : s.inscount1 < UINT32_SIZE) :
    (runBlocks (List.replicate n
        ((⟨c⟩ : BBL), (⟨IPOINT.BEFORE, false, Probe.docount1 c⟩ : Call))) s).inscount1 =
      (s.inscount1 + n * c) % UINT32_SIZE := by
  rw [runBlocks_inscount1 _ _ hs]
  · simp [executedInstructions]
  · intro e he
    rw [List.eq_of_mem_replicate he]

theorem executedInstructions_replicate (n : Nat) (e : BBL × Call) :
    executedInstructions (List.replicate n e) = n * e.1.numIns := by
  simp [executedInstructions]

/-! ## C1: block-instruction consistency -/

/-- C1, as amended: starting from all counters at zero, after `prog_trace` has
instrumented the blocks of a trace, every finite sequence of block execution
events, each firing the probe `prog_trace` inserted for its block, leaves
`inscount1` equal to the sum of the static instruction counts of the executed
blocks modulo `2 ^ 32`; it equals the sum itself whenever the sum is below
`2 ^ 32`. -/
theorem block_instruction_consistency (trace : List BBL) (events : List (BBL × Call))
    (h : ∀ e ∈ events, e ∈ (prog_trace trace Counters.init).2) :
    (runBlocks events (prog_trace trace Counters.init).1).inscount1 =
        executedInstructions events % 4294967296 ∧
      (executedInstructions events < 4294967296 →
        (runBlocks events (prog_trace trace Counters.init).1).inscount1 =
          executedInstructions events) := by
  have hprobe : ∀ e ∈ events, e.2 = ⟨IPOINT.BEFORE, false, Probe.docount1 e.1.numIns⟩ := by
    intro e he
    have hmem := h e he
    rw [prog_trace_snd, List.mem_map] at hmem
    obtain ⟨b, _, hb⟩ := hmem
    rw [← hb]
  have hzero : (prog_trace trace Counters.init).1.inscount1 = 0 := by
    rw [prog_trace_fst]; rfl
  have hmain := runBlocks_inscount1 events (prog_trace trace Counters.init).1
    (by rw [hzero]; decide) hprobe
  rw [hzero, Nat.zero_add] at hmain
  refine ⟨hmain, fun hlt => ?_⟩
  rw [hmain]
  exact Nat.mod_eq_of_lt hlt

/-- Witness for C1: blocks of 2, 3 and 1 instructions, executed in the order
first, third, first, second, give `inscount1 = 8`. -/
theorem block_instruction_consistency_witness :
    (runBlocks
        [(⟨2⟩, ⟨IPOINT.BEFORE, false, Probe.docount1 2⟩),
         (⟨1⟩, ⟨IPOINT.BEFORE, false, Probe.docount1 1⟩),
         (⟨2⟩, ⟨IPOINT.BEFORE, false, Probe.docount1 2⟩),
         (⟨3⟩, ⟨IPOINT.BEFORE, false, Probe.docount1 3⟩)]
        (prog_trace [⟨2⟩, ⟨3⟩, ⟨1⟩] Counters.init).1).inscount1 = 8 :=
  (block_instruction_consistency [⟨2⟩, ⟨3⟩, ⟨1⟩]
      [(⟨2⟩, ⟨IPOINT.BEFORE, false, Probe.docount1 2⟩),
       (⟨1⟩, ⟨IPOINT.BEFORE, false, Probe.docount1 1⟩),
       (⟨2⟩, ⟨IPOINT.BEFORE, false, Probe.docount1 2⟩),
       (⟨3⟩, ⟨IPOINT.BEFORE, false, Probe.docount1 3⟩)]
      (by decide)).2 (by decide)

/-- Counterexample to C1 as stated: one block of one instruction, instrumented
by `prog_trace` from zeroed counters and then executed `2 ^ 32` times.  The sum
of the static instruction counts over the execution events is `2 ^ 32`, while
`inscount1` is `0` at the end. -/
theorem block_instruction_consistency_counterexample :
    (∀ e ∈ List.replicate 4294967296
          ((⟨1⟩ : BBL), (⟨IPOINT.BEFORE, false, Probe.docount1 1⟩ : Call)),
        e ∈ (prog_trace [⟨1⟩] Counters.init).2) ∧
      (runBlocks (List.replicate 4294967296
          ((⟨1⟩ : BBL), (⟨IPOINT.BEFORE, false, Probe.docount1 1⟩ : Call)))
        (prog_trace [⟨1⟩] Counters.init).1).inscount1 = 0 ∧
      executedInstructions (List.replicate 4294967296
          ((⟨1⟩ : BBL), (⟨IPOINT.BEFORE, false, Probe.docount1 1⟩ : Call))) = 4294967296 ∧
      (runBlocks (List.replicate 4294967296
          ((⟨1⟩ : BBL), (⟨IPOINT.BEFORE, false, Probe.docount1 1⟩ : Call)))
        (prog_trace [⟨1⟩] Counters.init).1).inscount1 ≠
        executedInstructions (List.replicate 4294967296
          ((⟨1⟩ : BBL), (⟨IPOINT.BEFORE, false, Probe.docount1 1⟩ : Call))) := by
  have hrun : (runBlocks (List.replicate 4294967296
          ((⟨1⟩ : BBL), (⟨IPOINT.BEFORE, false, Probe.docount1 1⟩ : Call)))
        (prog_trace [⟨1⟩] Counters.init).1).inscount1 = 0 := by
    rw [runBlocks_replicate_docount1 _ _ _ (by decide)]
    decide
  have hsum : executedInstructions (List.replicate 4294967296
          ((⟨1⟩ : BBL), (⟨IPOINT.BEFORE, false, Probe.docount1 1⟩ : Call))) = 4294967296 := by
    rw [executedInstructions_replicate]
    rfl
  refine ⟨?_, hrun, hsum, ?_⟩
  · intro e he
    rw [List.eq_of_mem_replicate he]
    decide
  · rw [hrun, hsum]
    decide

/-! ## C5: per-block instrumentation -/

/-- C5: one call of `prog_trace` on a trace of `n` blocks applies the 32-bit
increment to `bblcount` once per block, `n` times in total (which is
`bblcount + n` modulo `2 ^ 32`, and `bblcount + n` itself when that is below
`2 ^ 32`); it inserts, for each block of the trace in order, exactly one
unpredicated before-block `docount1` call whose argument is `BBL_NumIns` of
that block; it changes no other counter.  Three blocks of 2, 3 and 1
instructions instrumented from zero and executed once each give
`bblcount = 3` and `inscount1 = 6`. -/
theorem prog_trace_per_block (trace : List BBL) (s : Counters) :
    (prog_trace trace s).1.bblcount =
        (fun b => (b + 1) % 4294967296)^[trace.length] s.bblcount ∧
      (s.bblcount < 4294967296 →
        (prog_trace trace s).1.bblcount = (s.bblcount + trace.length) % 4294967296) ∧
      (s.bblcount + trace.length < 4294967296 →
        (prog_trace trace s).1.bblcount = s.bblcount + trace.length) ∧
      (prog_trace trace s).2 =
        trace.map (fun b => (b, (⟨IPOINT.BEFORE, false, Probe.docount1 b.numIns⟩ : Call))) ∧
      (prog_trace trace s).2.length = trace.length ∧
      (prog_trace trace s).1.inscount1 = s.inscount1 ∧
      (prog_trace trace s).1.inscount0 = s.inscount0 ∧
      (prog_trace trace s).1.memReadCount = s.memReadCount ∧
      (prog_trace trace s).1.memWriteCount = s.memWriteCount ∧
      runBlocks (prog_trace [⟨2⟩, ⟨3⟩, ⟨1⟩] Counters.init).2
          (prog_trace [⟨2⟩, ⟨3⟩, ⟨1⟩] Counters.init).1 =
        { bblcount := 3, inscount1 := 6, inscount0 := 0, memReadCount := 0,
          memWriteCount := 0 } := by
  have hb : (prog_trace trace s).1.bblcount =
      (fun b => (b + 1) % 4294967296)^[trace.length] s.bblcount := by
    rw [prog_trace_fst]
  refine ⟨hb, ?_, ?_, prog_trace_snd trace s, ?_, ?_, ?_, ?_, ?_, ?_⟩
  · intro h
    rw [hb, iterate_incr _ _ h]
  · intro h
    rw [hb, iterate_incr _ _ (by omega)]
    exact Nat.mod_eq_of_lt h
  · rw [prog_trace_snd, List.length_map]
  · rw [prog_trace_fst]
  · rw [prog_trace_fst]
  · rw [prog_trace_fst]
  · rw [prog_trace_fst]
  · decide

/-- Witness for C5: a trace of blocks with 2, 3 and 1 instructions, seen when
`bblcount` is 7, leaves `bblcount = 10`. -/
theorem prog_trace_per_block_witness :
    (prog_trace [⟨2⟩, ⟨3⟩, ⟨1⟩]
        { bblcount := 7, inscount1 := 0, inscount0 := 0, memReadCount := 0,
          memWriteCount := 0 }).1.bblcount = 10 :=
  (prog_trace_per_block [⟨2⟩, ⟨3⟩, ⟨1⟩]
    { bblcount := 7, inscount1 := 0, inscount0 := 0, memReadCount := 0,
      memWriteCount := 0 }).2.2.1 (by decide)

/-! ## C10: runtime counter semantics -/

/-- C10: each runtime callback changes exactly its own counter, to the old
value plus the increment modulo `2 ^ 32`, and leaves the other four counters
as they were; `MemRead` and `MemWrite` do not depend on `ip` and `addr`; a
counter at `2 ^ 32 - 1` incremented by 1 becomes 0.  The callbacks are total
functions, so they never fail. -/
theorem runtime_counter_semantics (s : Counters) (c ip addr : Nat) :
    docount1 c s = { s with inscount1 := (s.inscount1 + c) % 2 ^ 32 } ∧
      docount0 s = { s with inscount0 := (s.inscount0 + 1) % 2 ^ 32 } ∧
      MemRead ip addr s = { s with memReadCount := (s.memReadCount + 1) % 2 ^ 32 } ∧
      MemWrite ip addr s = { s with memWriteCount := (s.memWriteCount + 1) % 2 ^ 32 } ∧
      (∀ ip2 addr2 : Nat, MemRead ip2 addr2 s = MemRead ip addr s) ∧
      (∀ ip2 addr2 : Nat, MemWrite ip2 addr2 s = MemWrite ip addr s) ∧
      (docount1 1 { s with inscount1 := 2 ^ 32 - 1 }).inscount1 = 0 ∧
      (docount0 { s with inscount0 := 2 ^ 32 - 1 }).inscount0 = 0 ∧
      (MemRead ip addr { s with memReadCount := 2 ^ 32 - 1 }).memReadCount = 0 ∧
      (MemWrite ip addr { s with memWriteCount := 2 ^ 32 - 1 }).memWriteCount = 0 := by
  refine ⟨rfl, rfl, rfl, rfl, fun _ _ => rfl, fun _ _ => rfl, ?_, ?_, ?_, ?_⟩ <;>
    simp [docount1, docount0, MemRead, MemWrite, UINT32_SIZE]

/-! ## Lemmas on instruction-level calls -/

theorem runCalls_append (pred : Bool) (ip : Nat) (ea : List Nat) (a b : List Call)
    (s : Counters) :
    runCalls pred ip ea (a ++ b) s = runCalls pred ip ea b (runCalls pred ip ea a s) := by
  simp [runCalls, List.foldl_append]

theorem runCalls_loop_off (ops : List MemOperand) (k ip : Nat) (ea : List Nat) (s : Counters) :
    runCalls false ip ea (InstructionLoop ops k) s = s := by
  induction ops generalizing k s with
  | nil => rfl
  | cons op rest ih =>
    simp only [InstructionLoop, runCalls_append]
    rw [ih]
    cases op.isRead <;> cases op.isWritten <;> simp [runCalls, runCall]

theorem runCalls_loop_on (ops : List MemOperand) (k ip : Nat) (ea : List Nat) (s : Counters) :
    runCalls true ip ea (InstructionLoop ops k) s =
      { s with
        memReadCount := (fun b => (b + 1) % 4294967296)^[readCount ops] s.memReadCount,
        memWriteCount := (fun b => (b + 1) % 4294967296)^[writeCount ops] s.memWriteCount } := by
  induction ops generalizing k s with
  | nil => rfl
  | cons op rest ih =>
    obtain ⟨r, w⟩ := op
    simp only [InstructionLoop, runCalls_append]
    rw [ih]
    cases r <;> cases w <;>
      simp [runCalls, runCall, runProbe, MemRead, MemWrite, readCount, writeCount, UINT32_SIZE]

theorem execINS_on (ins : INS) (ip : Nat) (ea : List Nat) (s : Counters) :
    execINS ⟨ins, true, ip, ea⟩ s =
      { s with
        inscount0 := (s.inscount0 + 1) % 4294967296,
        memReadCount :=
          (fun b => (b + 1) % 4294967296)^[readCount ins.memOps] s.memReadCount,
        memWriteCount :=
          (fun b => (b + 1) % 4294967296)^[writeCount ins.memOps] s.memWriteCount } := by
  simp [execINS, Instruction, runCalls_append, runCalls_loop_on]
  simp [runCalls, runCall, runProbe, docount0, UINT32_SIZE]

theorem runStream_on (xs : List InsExec) (s : Counters) (hp : ∀ x ∈ xs, x.pred = true) :
    runStream xs s =
      { s with
        inscount0 := (fun b => (b + 1) % 4294967296)^[xs.length] s.inscount0,
        memReadCount := (fun b => (b + 1) % 4294967296)^[streamReads xs] s.memReadCount,
        memWriteCount :=
          (fun b => (b + 1) % 4294967296)^[streamWrites xs] s.memWriteCount } := by
  induction xs generalizing s with
  | nil => rfl
  | cons x rest ih =>
    have hx : x = ⟨x.ins, true, x.ip, x.ea⟩ := by
      have := hp x (List.mem_cons_self _ _)
      cases x
      simp_all
    have hrest : ∀ y ∈ rest, y.pred = true := fun y hy => hp y (List.mem_cons_of_mem _ hy)
    have hcons : runStream (x :: rest) s = runStream rest (execINS x s) := rfl
    rw [hcons, ih _ hrest, hx, execINS_on]
    simp only [streamReads, streamWrites, List.map_cons, List.sum_cons, List.length_cons,
      Function.iterate_succ_apply]
    rw [Nat.add_comm (readCount x.ins.memOps), Nat.add_comm (writeCount x.ins.memOps),
      Function.iterate_add_apply, Function.iterate_add_apply]

theorem runStream_memReadCount (xs : List InsExec) (s : Counters)
    (hp : ∀ x ∈ xs, x.pred = true) :
    (runStream xs s).memReadCount =
      (fun b => (b + 1) % 4294967296)^[streamReads xs] s.memReadCount := by
  rw [runStream_on xs s hp]

theorem streamReads_replicate (n : Nat) (x : InsExec) :
    streamReads (List.replicate n x) = n * readCount x.ins.memOps := by
  simp [streamReads]

theorem Instruction_probe_counts (ins : INS) :
    memReadProbes (Instruction ins) = readCount ins.memOps ∧
      memWriteProbes (Instruction ins) = writeCount ins.memOps := by
  have hloop : ∀ (ops : List MemOperand) (k : Nat),
      memReadProbes (InstructionLoop ops k) = readCount ops ∧
        memWriteProbes (InstructionLoop ops k) = writeCount ops := by
    intro ops
    induction ops with
    | nil => intro k; exact ⟨rfl, rfl⟩
    | cons op rest ih =>
      intro k
      obtain ⟨r, w⟩ := op
      have h1 := (ih (k + 1)).1
      have h2 := (ih (k + 1)).2
      simp only [memReadProbes, memWriteProbes, readCount, writeCount] at h1 h2 ⊢
      cases r <;> cases w <;> simp [InstructionLoop, h1, h2]
  have h := hloop ins.memOps 0
  simp only [memReadProbes, memWriteProbes, readCount, writeCount] at h ⊢
  simp [Instruction, h.1, h.2]

/-! ## C3: predication -/

/-- C3: an execution of an instruction with its predicate off leaves
`memReadCount` and `memWriteCount` unchanged, because every `MemRead` and
`MemWrite` call `Instruction` inserts is a predicated call; `inscount0` is
still incremented by 1 (the 32-bit increment of `docount0`), because the
single `docount0` call is inserted unpredicated, and this holds whatever the
predicate is. -/
theorem predication_respected (ins : INS) (ip : Nat) (ea : List Nat) (s : Counters) :
    (execINS ⟨ins, false, ip, ea⟩ s).memReadCount = s.memReadCount ∧
      (execINS ⟨ins, false, ip, ea⟩ s).memWriteCount = s.memWriteCount ∧
      execINS ⟨ins, false, ip, ea⟩ s = docount0 s ∧
      (∀ pred : Bool,
        (execINS ⟨ins, pred, ip, ea⟩ s).inscount0 = (s.inscount0 + 1) % 4294967296) ∧
      (∀ c ∈ Instruction ins, c.predicated = true ∨ c = ⟨IPOINT.BEFORE, false, Probe.docount0⟩) ∧
      (∀ c ∈ Instruction ins, c.predicated = true → c.probe ≠ Probe.docount0) ∧
      ((Instruction ins).filter (fun c => decide (c.probe = Probe.docount0))).length = 1 := by
  have hoff : execINS ⟨ins, false, ip, ea⟩ s = docount0 s := by
    simp [execINS, Instruction, runCalls_append, runCalls_loop_off]
    simp [runCalls, runCall, runProbe]
  have hloop : ∀ (ops : List MemOperand) (k : Nat), ∀ c ∈ InstructionLoop ops k,
      c.predicated = true ∧ c.probe ≠ Probe.docount0 := by
    intro ops
    induction ops with
    | nil => intro k c hc; simp [InstructionLoop] at hc
    | cons op rest ih =>
      intro k c hc
      simp only [InstructionLoop, List.mem_append] at hc
      rcases hc with hc | hc | hc
      · split at hc
        · simp at hc; subst hc; simp
        · simp at hc
      · split at hc
        · simp at hc; subst hc; simp
        · simp at hc
      · exact ih _ c hc
  refine ⟨?_, ?_, hoff, ?_, ?_, ?_, ?_⟩
  · rw [hoff]; rfl
  · rw [hoff]; rfl
  · intro pred
    cases pred
    · rw [hoff]; rfl
    · rw [execINS_on]
  · intro c hc
    simp only [Instruction, List.mem_append, List.mem_singleton] at hc
    rcases hc with hc | hc
    · exact Or.inl (hloop _ _ c hc).1
    · exact Or.inr hc
  · intro c hc hpred
    simp only [Instruction, List.mem_append, List.mem_singleton] at hc
    rcases hc with hc | hc
    · exact (hloop _ _ c hc).2
    · subst hc; simp at hpred
  · have hnone : (InstructionLoop ins.memOps 0).filter
        (fun c => decide (c.probe = Probe.docount0)) = [] := by
      rw [List.filter_eq_nil_iff]
      intro c hc
      simpa using (hloop _ _ c hc).2
    simp [Instruction, List.filter_append, hnone]

/-! ## C2: memory operand conservation -/

/-- C2, as amended: for a stream of instructions instrumented by `Instruction`
with `K` operands flagged as read and `L` flagged as written, every
instruction executed once with its predicate true, starting from any `UINT32`
values of the two counters, `memReadCount` becomes
`(memReadCount + K) mod 2 ^ 32` and `memWriteCount` becomes
`(memWriteCount + L) mod 2 ^ 32`, an increase by exactly `K` and `L` whenever
those sums stay below `2 ^ 32`; one `MemRead` call is inserted per read
operand and one `MemWrite` call per written operand, and an instruction
without memory operands gets the `docount0` call only. -/
theorem memory_operand_conservation (xs : List InsExec) (s : Counters)
    (hr : s.memReadCount < 4294967296) (hw : s.memWriteCount < 4294967296)
    (hp : ∀ x ∈ xs, x.pred = true) :
    (runStream xs s).memReadCount = (s.memReadCount + streamReads xs) % 4294967296 ∧
      (runStream xs s).memWriteCount = (s.memWriteCount + streamWrites xs) % 4294967296 ∧
      (s.memReadCount + streamReads xs < 4294967296 →
        (runStream xs s).memReadCount = s.memReadCount + streamReads xs) ∧
      (s.memWriteCount + streamWrites xs < 4294967296 →
        (runStream xs s).memWriteCount = s.memWriteCount + streamWrites xs) ∧
      (∀ x ∈ xs, memReadProbes (Instruction x.ins) = readCount x.ins.memOps ∧
        memWriteProbes (Instruction x.ins) = writeCount x.ins.memOps) ∧
      (∀ x ∈ xs, x.ins.memOps = [] →
        Instruction x.ins = [⟨IPOINT.BEFORE, false, Probe.docount0⟩]) := by
  have hR : (runStream xs s).memReadCount =
      (s.memReadCount + streamReads xs) % 4294967296 := by
    rw [runStream_on xs s hp]
    exact iterate_incr _ _ hr
  have hW : (runStream xs s).memWriteCount =
      (s.memWriteCount + streamWrites xs) % 4294967296 := by
    rw [runStream_on xs s hp]
    exact iterate_incr _ _ hw
  refine ⟨hR, hW, ?_, ?_, ?_, ?_⟩
  · intro h
    rw [hR]; exact Nat.mod_eq_of_lt h
  · intro h
    rw [hW]; exact Nat.mod_eq_of_lt h
  · intro x _
    exact Instruction_probe_counts x.ins
  · intro x _ hx
    simp [Instruction, hx, InstructionLoop]

/-- Witness for C2: a load, a store, a read-modify-write and a register-only
instruction, executed once each from `memReadCount = 5` and
`memWriteCount = 0`, leave `memReadCount = 7`. -/
theorem memory_operand_conservation_witness :
    (runStream
        [⟨⟨[⟨true, false⟩]⟩, true, 100, [8]⟩,
         ⟨⟨[⟨false, true⟩]⟩, true, 104, [16]⟩,
         ⟨⟨[⟨true, true⟩]⟩, true, 108, [24]⟩,
         ⟨⟨[]⟩, true, 112, []⟩]
        { bblcount := 0, inscount1 := 0, inscount0 := 0, memReadCount := 5,
          memWriteCount := 0 }).memReadCount = 7 :=
  (memory_operand_conservation
      [⟨⟨[⟨true, false⟩]⟩, true, 100, [8]⟩,
       ⟨⟨[⟨false, true⟩]⟩, true, 104, [16]⟩,
       ⟨⟨[⟨true, true⟩]⟩, true, 108, [24]⟩,
       ⟨⟨[]⟩, true, 112, []⟩]
      { bblcount := 0, inscount1 := 0, inscount0 := 0, memReadCount := 5,
        memWriteCount := 0 }
      (by decide) (by decide) (by decide)).2.2.1 (by decide)

/-- Counterexample to C2 as stated: a stream of `2 ^ 32` instructions, each
with one memory operand flagged as read, all executed once with the predicate
true from zeroed counters.  The stream has `K = 2 ^ 32` read operands, and
`memReadCount` is `0` afterwards as it was before: it has not increased by
`K`. -/
theorem memory_operand_conservation_counterexample :
    (∀ x ∈ List.replicate 4294967296 (⟨⟨[⟨true, false⟩]⟩, true, 0, [0]⟩ : InsExec),
        x.pred = true) ∧
      streamReads (List.replicate 4294967296
        (⟨⟨[⟨true, false⟩]⟩, true, 0, [0]⟩ : InsExec)) = 4294967296 ∧
      (runStream (List.replicate 4294967296
        (⟨⟨[⟨true, false⟩]⟩, true, 0, [0]⟩ : InsExec)) Counters.init).memReadCount = 0 ∧
      (runStream (List.replicate 4294967296
        (⟨⟨[⟨true, false⟩]⟩, true, 0, [0]⟩ : InsExec)) Counters.init).memReadCount ≠
        Counters.init.memReadCount + streamReads (List.replicate 4294967296
          (⟨⟨[⟨true, false⟩]⟩, true, 0, [0]⟩ : InsExec)) := by
  have hp : ∀ x ∈ List.replicate 4294967296 (⟨⟨[⟨true, false⟩]⟩, true, 0, [0]⟩ : InsExec),
      x.pred = true := by
    intro x hx
    rw [List.eq_of_mem_replicate hx]
  have hK : streamReads (List.replicate 4294967296
      (⟨⟨[⟨true, false⟩]⟩, true, 0, [0]⟩ : InsExec)) = 4294967296 := by
    rw [streamReads_replicate]
    rfl
  have hrun : (runStream (List.replicate 4294967296
      (⟨⟨[⟨true, false⟩]⟩, true, 0, [0]⟩ : InsExec)) Counters.init).memReadCount = 0 := by
    rw [runStream_memReadCount _ _ hp, hK, iterate_incr _ _ (by decide)]
    decide
  refine ⟨hp, hK, hrun, ?_⟩
  rw [hrun, hK]
  decide

/-! ## C4: monotonicity -/

theorem step_le_of_noWrap (s : Counters) (st : Step) (h : noWrap s st) :
    Counters.le s (step s st) := by
  cases st with
  | prog_trace trace =>
    simp only [noWrap, UINT32_SIZE] at h
    simp only [step, prog_trace_fst, Counters.le]
    rw [iterate_incr _ _ (by omega)]
    refine ⟨?_, le_refl _, le_refl _, le_refl _, le_refl _⟩
    omega
  | docount1 c =>
    simp only [noWrap, UINT32_SIZE] at h
    simp only [step, docount1, Counters.le, UINT32_SIZE]
    refine ⟨le_refl _, ?_, le_refl _, le_refl _, le_refl _⟩
    omega
  | docount0 =>
    simp only [noWrap, UINT32_SIZE] at h
    simp only [step, docount0, Counters.le, UINT32_SIZE]
    refine ⟨le_refl _, le_refl _, ?_, le_refl _, le_refl _⟩
    omega
  | MemRead ip addr =>
    simp only [noWrap, UINT32_SIZE] at h
    simp only [step, MemRead, Counters.le, UINT32_SIZE]
    refine ⟨le_refl _, le_refl _, le_refl _, ?_, le_refl _⟩
    omega
  | MemWrite ip addr =>
    simp only [noWrap, UINT32_SIZE] at h
    simp only [step, MemWrite, Counters.le, UINT32_SIZE]
    refine ⟨le_refl _, le_refl _, le_refl _, le_refl _, ?_⟩
    omega

/-- C4, as amended: all five counters start at zero, and in every run of
`prog_trace`, `docount1(c)`, `docount0`, `MemRead` and `MemWrite` steps from
there, each counter after a step is greater than or equal to its value before
the step, provided the step does not carry the counter it updates past
`2 ^ 32 - 1`. -/
theorem monotone_until_wrap (pre : List Step) (st : Step)
    (h : noWrap (run pre Counters.init) st) :
    Counters.init = ⟨0, 0, 0, 0, 0⟩ ∧
      Counters.le (run pre Counters.init) (step (run pre Counters.init) st) :=
  ⟨rfl, step_le_of_noWrap _ _ h⟩

/-- Witness for C4: after a trace of two blocks, a block execution and a
memory read, an instruction visit leaves no counter smaller. -/
theorem monotone_until_wrap_witness :
    Counters.le
      (run [Step.prog_trace [⟨2⟩, ⟨3⟩], Step.docount1 2, Step.MemRead 64 4096] Counters.init)
      (step
        (run [Step.prog_trace [⟨2⟩, ⟨3⟩], Step.docount1 2, Step.MemRead 64 4096] Counters.init)
        Step.docount0) :=
  (monotone_until_wrap [Step.prog_trace [⟨2⟩, ⟨3⟩], Step.docount1 2, Step.MemRead 64 4096]
    Step.docount0 (by decide)).2

/-- Counterexample to C4 as stated: from zeroed counters, the run
`docount1(4294967295)` followed by the step `docount1(1)` takes `inscount1`
from `4294967295` to `0`, so the counter after the step is smaller than
before it. -/
theorem monotone_counterexample :
    (run [Step.docount1 4294967295] Counters.init).inscount1 = 4294967295 ∧
      (step (run [Step.docount1 4294967295] Counters.init) (Step.docount1 1)).inscount1 = 0 ∧
      ¬ Counters.le (run [Step.docount1 4294967295] Counters.init)
        (step (run [Step.docount1 4294967295] Counters.init) (Step.docount1 1)) := by
  decide

/-! ## Lemmas on the capture loop and the report -/

theorem captureWrites_eq (argv : List String) (idx vidx : Nat) :
    captureWrites argv idx vidx = List.enumFrom vidx (argv.drop (6 - idx)) := by
  induction argv generalizing idx vidx with
  | nil => simp [captureWrites]
  | cons a rest ih =>
    by_cases h : idx > 5
    · have h0 : 6 - idx = 0 := by omega
      have h1 : 6 - (idx + 1) = 0 := by omega
      simp [captureWrites, h, ih, h0, h1]
    · have h0 : 6 - idx = (6 - (idx + 1)) + 1 := by omega
      rw [h0]
      simp [captureWrites, h, ih]

theorem captureWrites_main (argv : List String) :
    captureWrites argv 0 0 = List.enum (argv.drop 6) := by
  rw [captureWrites_eq]; rfl

theorem storeInputs_isSome_iff (ws : List (Nat × String)) (inputs : List String) :
    (storeInputs ws inputs).isSome = true ↔ ∀ w ∈ ws, w.1 < inputs.length := by
  induction ws generalizing inputs with
  | nil => simp [storeInputs]
  | cons w rest ih =>
    by_cases h : w.1 < inputs.length
    · simp [storeInputs, h, ih]
    · simp [storeInputs, h]

theorem storeInputs_enumFrom (l pre post : List String) (h : l.length ≤ post.length) :
    storeInputs (List.enumFrom pre.length l) (pre ++ post) =
      some (pre ++ l ++ post.drop l.length) := by
  induction l generalizing pre post with
  | nil => simp [storeInputs]
  | cons a rest ih =>
    cases post with
    | nil => simp at h
    | cons b post1 =>
      have hlen : rest.length ≤ post1.length := by simpa using h
      have hidx : pre.length < (pre ++ b :: post1).length := by simp
      have hset : (pre ++ b :: post1).set pre.length a = (pre ++ [a]) ++ post1 := by
        simp
      have hk : pre.length + 1 = (pre ++ [a]).length := by simp
      simp only [List.enumFrom_cons, storeInputs, hidx, if_true, hset]
      rw [hk, ih _ _ hlen]
      simp

theorem echoInputs_eq (inputs : List String) (out : String) :
    echoInputs inputs out = out ++ spaceJoined inputs := by
  induction inputs generalizing out with
  | nil => simp [echoInputs, spaceJoined]
  | cons a rest ih =>
    have hcons : echoInputs (a :: rest) out = echoInputs rest (out ++ a ++ " ") := rfl
    rw [hcons, ih]
    simp [spaceJoined, String.append_assoc]

theorem spaceJoined_append (l1 l2 : List String) :
    spaceJoined (l1 ++ l2) = spaceJoined l1 ++ spaceJoined l2 := by
  induction l1 with
  | nil => simp [spaceJoined]
  | cons a rest ih => simp [spaceJoined, ih, String.append_assoc]

theorem spaceJoined_replicate_empty (k : Nat) :
    spaceJoined (List.replicate k "") = spaces k := by
  induction k with
  | zero => rfl
  | succ n ih => simp [List.replicate_succ, spaceJoined, spaces, ih]

theorem captureInputs_eq (argv : List String) (h : argv.length ≤ 16) :
    captureInputs argv =
      some (argv.drop 6 ++ List.replicate (10 - (argv.length - 6)) "") := by
  have hlen : (argv.drop 6).length ≤ inputsInit.length := by
    simp [inputsInit]; omega
  have hmain := storeInputs_enumFrom (argv.drop 6) [] inputsInit hlen
  simp only [List.length_nil, List.nil_append] at hmain
  rw [captureInputs, captureWrites_main, List.enum, hmain]
  simp only [inputsInit, List.drop_replicate, List.length_drop]

theorem mem_captureWrites_iff (argv : List String) (i : Nat) (a : String) :
    (i, a) ∈ captureWrites argv 0 0 ↔ argv[i + 6]? = some a := by
  rw [captureWrites_main, List.mk_mem_enum_iff_getElem?, List.getElem?_drop, Nat.add_comm]

theorem FiniUpToBenchmark_eq (buffer : String) (inputs : List String) :
    FiniUpToBenchmark buffer inputs =
      "// Benchmark Characteristics" ++ "\n" ++ ("// Time: " ++ buffer ++ "\n") ++
        FiniBenchmarkLine inputs := by
  simp only [FiniUpToBenchmark, FiniBenchmarkLine, echoInputs_eq, String.append_assoc,
    String.empty_append]

/-! ## C8: capacity overrun -/

/-- C8: in the argument-capture loop of `main`, the write for position `i + 6`
of the command line goes to index `i` of the 10-element vector `inputs`, with
no bounds check; so every index written is below 10 exactly when
`argc <= 16`, and for every `argc > 16` the loop writes at index 10 or above,
outside the vector. -/
theorem capture_bounds (argv : List String) :
    ((∀ w ∈ captureWrites argv 0 0, w.1 < inputsInit.length) ↔ argv.length ≤ 16) ∧
      (16 < argv.length → ∃ w ∈ captureWrites argv 0 0, 10 ≤ w.1) ∧
      (∀ (i : Nat) (a : String), (i, a) ∈ captureWrites argv 0 0 ↔ argv[i + 6]? = some a) ∧
      ((captureInputs argv).isSome = true ↔ argv.length ≤ 16) ∧
      inputsInit.length = 10 := by
  have hlen : inputsInit.length = 10 := by simp [inputsInit]
  have hover : 16 < argv.length → ∃ w ∈ captureWrites argv 0 0, 10 ≤ w.1 := by
    intro h
    refine ⟨(10, argv[16]), ?_, le_refl _⟩
    rw [mem_captureWrites_iff]
    exact List.getElem?_eq_getElem h
  have hiff : (∀ w ∈ captureWrites argv 0 0, w.1 < inputsInit.length) ↔ argv.length ≤ 16 := by
    rw [hlen]
    constructor
    · intro hall
      by_contra hgt
      obtain ⟨w, hw, h10⟩ := hover (by omega)
      have := hall w hw
      omega
    · intro hle w hw
      obtain ⟨i, a⟩ := w
      rw [mem_captureWrites_iff] at hw
      have hlt : i + 6 < argv.length := by
        by_contra hge
        rw [List.getElem?_eq_none (by omega)] at hw
        exact Option.noConfusion hw
      show i < 10
      omega
  refine ⟨hiff, hover, mem_captureWrites_iff argv, ?_, hlen⟩
  rw [captureInputs, storeInputs_isSome_iff]
  exact hiff

/-- Witness for C8: a command line of 17 arguments makes the loop write at
index 10. -/
theorem capture_bounds_witness :
    ∃ w ∈ captureWrites
        ["pin", "-t", "tool", "-o", "out", "--", "a0", "a1", "a2", "a3", "a4", "a5", "a6",
          "a7", "a8", "a9", "a10"] 0 0, 10 ≤ w.1 :=
  (capture_bounds
    ["pin", "-t", "tool", "-o", "out", "--", "a0", "a1", "a2", "a3", "a4", "a5", "a6",
      "a7", "a8", "a9", "a10"]).2.1 (by decide)

/-! ## C7: input echo -/

/-- C7, as amended: for a command line with `N <= 10` arguments beyond
position index 5, the capture loop fills the first `N` slots of `inputs` and
the benchmark line `Fini` writes is `"// Benchmark: "`, then the `N`
arguments `argv[6]`, ..., `argv[5+N]` verbatim and in order, each followed by
a single space, then `10 - N` further spaces, one for each unused slot of the
vector; only for `N = 10` is it `"// Benchmark: <arg1> ... <argN> "` and
nothing more.  The line follows the time line in the text of `Fini`. -/
theorem input_echo (argv : List String) (buffer : String) (s : Counters)
    (h : argv.length ≤ 16) :
    ∃ inputs : List String,
      captureInputs argv = some inputs ∧
        FiniBenchmarkLine inputs =
          "// Benchmark: " ++ spaceJoined (argv.drop 6) ++
            spaces (10 - (argv.length - 6)) ∧
        (argv.length = 16 →
          FiniBenchmarkLine inputs = "// Benchmark: " ++ spaceJoined (argv.drop 6)) ∧
        ∃ rest : String,
          (Fini buffer inputs s).1 =
            "// Benchmark Characteristics" ++ "\n" ++ ("// Time: " ++ buffer ++ "\n") ++
              (FiniBenchmarkLine inputs ++ ("\n" ++ rest)) := by
  have hline : FiniBenchmarkLine
      (argv.drop 6 ++ List.replicate (10 - (argv.length - 6)) "") =
      "// Benchmark: " ++ spaceJoined (argv.drop 6) ++ spaces (10 - (argv.length - 6)) := by
    rw [FiniBenchmarkLine, echoInputs_eq, spaceJoined_append, spaceJoined_replicate_empty]
    simp [String.append_assoc]
  refine ⟨_, captureInputs_eq argv h, hline, ?_, ?_⟩
  · intro h16
    rw [hline, h16]
    simp [spaces]
  · refine ⟨" " ++ "\n" ++ "// Program Stats" ++ "\n" ++
      "Basic Blocks: " ++ toString s.bblcount ++ "\n" ++
      "Memory Reads: " ++ toString s.memReadCount ++ "\n" ++
      "Memory Writes: " ++ toString s.memWriteCount ++ "\n" ++
      "Total Instructions: " ++ toString s.inscount1 ++ "\n", ?_⟩
    simp only [Fini, FiniUpToBenchmark_eq, String.append_assoc]

/-- Witness for C7: two arguments beyond position index 5. -/
theorem input_echo_witness :
    ∃ inputs : List String,
      captureInputs ["pin", "-t", "tool", "-o", "out", "--", "/bin/ls", "-l"] = some inputs ∧
        FiniBenchmarkLine inputs = "// Benchmark: /bin/ls -l         " := by
  obtain ⟨inputs, h1, h2, _⟩ :=
    input_echo ["pin", "-t", "tool", "-o", "out", "--", "/bin/ls", "-l"] "" Counters.init
      (by decide)
  exact ⟨inputs, h1, by rw [h2]; decide⟩

/-- Counterexample to C7 as stated: with one argument beyond position index 5
(`N = 1`), the capture loop leaves `/bin/ls` in the first slot and nine empty
strings after it, and the benchmark line `Fini` writes is `// Benchmark: `
followed by `/bin/ls` and ten spaces, not `// Benchmark: /bin/ls ` with a
single space. -/
theorem input_echo_counterexample :
    captureInputs ["pin", "-t", "tool", "-o", "out", "--", "/bin/ls"] =
        some ["/bin/ls", "", "", "", "", "", "", "", "", ""] ∧
      FiniBenchmarkLine ["/bin/ls", "", "", "", "", "", "", "", "", ""] =
        "// Benchmark: /bin/ls          " ∧
      FiniBenchmarkLine ["/bin/ls", "", "", "", "", "", "", "", "", ""] ≠
        "// Benchmark: " ++ spaceJoined (["pin", "-t", "tool", "-o", "out", "--", "/bin/ls"].drop 6) := by
  decide

/-! ## C6: report statistics -/

/-- C6: whatever the counters are when `Fini` is invoked, the text it writes
is a preamble that does not depend on the counters, ending with the line
`// Program Stats`, followed by exactly the four lines `Basic Blocks:`,
`Memory Reads:`, `Memory Writes:` and `Total Instructions:` in that order,
each with the value of `bblcount`, `memReadCount`, `memWriteCount` and
`inscount1` in decimal; `Fini` changes no counter and the text does not
depend on `inscount0`.  With counters 3, 6, 1, 1 the four lines read
`Basic Blocks: 3`, `Memory Reads: 1`, `Memory Writes: 1`,
`Total Instructions: 6`. -/
theorem report_statistics (buffer : String) (inputs : List String) (s : Counters) :
    (Fini buffer inputs s).1 =
        (FiniUpToBenchmark buffer inputs ++ "\n" ++ " " ++ "\n" ++ "// Program Stats" ++ "\n") ++
          ("Basic Blocks: " ++ toString s.bblcount ++ "\n" ++
            ("Memory Reads: " ++ toString s.memReadCount ++ "\n" ++
              ("Memory Writes: " ++ toString s.memWriteCount ++ "\n" ++
                ("Total Instructions: " ++ toString s.inscount1 ++ "\n")))) ∧
      (Fini buffer inputs s).2 = s ∧
      (∀ v : Nat, (Fini buffer inputs { s with inscount0 := v }).1 = (Fini buffer inputs s).1) ∧
      (Fini "Sat Oct 31 10:00:00 2026" ["/bin/ls", "", "", "", "", "", "", "", "", ""]
          { bblcount := 3, inscount1 := 6, inscount0 := 9, memReadCount := 1,
            memWriteCount := 1 }).1 =
        "// Benchmark Characteristics\n// Time: Sat Oct 31 10:00:00 2026\n" ++
          "// Benchmark: /bin/ls          \n \n// Program Stats\n" ++
          "Basic Blocks: 3\nMemory Reads: 1\nMemory Writes: 1\nTotal Instructions: 6\n" := by
  refine ⟨?_, rfl, fun _ => rfl, ?_⟩
  · simp only [Fini, String.append_assoc]
  · rfl

/-! ## C9: startup -/

theorem main_success (knobSummary knobOutputFile : String) (startReturns : Bool)
    (argv : List String) (h : argv.length ≤ 16) :
    main false knobSummary knobOutputFile startReturns argv =
      ((captureWrites argv 0 0).map (fun w => Action.setInput w.1 w.2) ++
        [Action.openOutFile knobOutputFile,
         Action.TRACE_AddInstrumentFunction Callback.prog_trace,
         Action.INS_AddInstrumentFunction Callback.Instruction,
         Action.PIN_AddFiniFunction Callback.Fini,
         Action.PIN_StartProgram],
        if startReturns then Outcome.returned 0 else Outcome.notReturned) := by
  simp [main, captureInputs_eq argv h]

/-- C9, as amended: when `PIN_Init` reports an error, `main` writes the usage
text to `cerr` and returns -1, the value `Usage` returns, having captured no
argument, opened no file, registered nothing and not started the program;
when `PIN_Init` succeeds and `argc <= 16`, so that every captured argument
fits the 10-element vector `inputs`, `main` captures the arguments, opens the
output file, registers `prog_trace`, `Instruction` and `Fini` and starts the
program, in that order, and the only value it can return is 0, which it does
exactly when `PIN_StartProgram` comes back. -/
theorem startup_paths (knobSummary knobOutputFile : String) (startReturns : Bool)
    (argv : List String) :
    (main true knobSummary knobOutputFile startReturns argv).2 = Outcome.returned (-1) ∧
      (Usage knobSummary).2 = -1 ∧
      (main true knobSummary knobOutputFile startReturns argv).1 =
        [Action.cerr ("Performs basic benchmarking for input programs" ++ "\n" ++
          ("\n" ++ knobSummary ++ "\n"))] ∧
      (∀ a ∈ (main true knobSummary knobOutputFile startReturns argv).1,
        a.afterInit = false) ∧
      (argv.length ≤ 16 →
        (main false knobSummary knobOutputFile startReturns argv).1 =
            (captureWrites argv 0 0).map (fun w => Action.setInput w.1 w.2) ++
              [Action.openOutFile knobOutputFile,
               Action.TRACE_AddInstrumentFunction Callback.prog_trace,
               Action.INS_AddInstrumentFunction Callback.Instruction,
               Action.PIN_AddFiniFunction Callback.Fini,
               Action.PIN_StartProgram] ∧
          (∀ a ∈ (main false knobSummary knobOutputFile startReturns argv).1,
            a.afterInit = true) ∧
          (main false knobSummary knobOutputFile startReturns argv).2 =
            (if startReturns then Outcome.returned 0 else Outcome.notReturned) ∧
          (∀ r : Int,
            (main false knobSummary knobOutputFile startReturns argv).2 = Outcome.returned r →
              r = 0)) := by
  refine ⟨rfl, rfl, rfl, ?_, ?_⟩
  · intro a ha
    have hm : (main true knobSummary knobOutputFile startReturns argv).1 =
        [Action.cerr (Usage knobSummary).1] := rfl
    rw [hm, List.mem_singleton] at ha
    subst ha
    rfl
  · intro h
    rw [main_success knobSummary knobOutputFile startReturns argv h]
    refine ⟨rfl, ?_, rfl, ?_⟩
    · intro a ha
      rw [List.mem_append, List.mem_map] at ha
      rcases ha with ⟨w, _, hw⟩ | ha
      · subst hw; rfl
      · simp at ha
        rcases ha with ha | ha | ha | ha | ha <;> subst ha <;> rfl
    · intro r hr
      cases startReturns
      · simp at hr
      · simp at hr
        exact hr.symm

/-- Witness for C9: a successful `PIN_Init` with two arguments beyond position
index 5 and a `PIN_StartProgram` that comes back. -/
theorem startup_paths_witness :
    main false "" "inscount.out" true ["pin", "-t", "tool", "-o", "out", "--", "/bin/ls", "-l"] =
      ([Action.setInput 0 "/bin/ls", Action.setInput 1 "-l",
        Action.openOutFile "inscount.out",
        Action.TRACE_AddInstrumentFunction Callback.prog_trace,
        Action.INS_AddInstrumentFunction Callback.Instruction,
        Action.PIN_AddFiniFunction Callback.Fini,
        Action.PIN_StartProgram],
       Outcome.returned 0) := by
  have h := (startup_paths "" "inscount.out" true
    ["pin", "-t", "tool", "-o", "out", "--", "/bin/ls", "-l"]).2.2.2.2 (by decide)
  exact Prod.ext h.1 h.2.2.1

/-- Counterexample to C9 as stated: `PIN_Init` succeeds on a command line of
17 arguments, eleven of them beyond position index 5.  The capture loop fills
the ten slots of `inputs` and then writes at index 10, outside the vector;
the behaviour is undefined from there, so `main` has not opened the output
file, registered anything or started the program, and has not returned 0. -/
theorem startup_paths_counterexample :
    main false "" "inscount.out" true
        ["pin", "-t", "tool", "-o", "out", "--", "a0", "a1", "a2", "a3", "a4", "a5", "a6",
          "a7", "a8", "a9", "a10"] =
      ([Action.setInput 0 "a0", Action.setInput 1 "a1", Action.setInput 2 "a2",
        Action.setInput 3 "a3", Action.setInput 4 "a4", Action.setInput 5 "a5",
        Action.setInput 6 "a6", Action.setInput 7 "a7", Action.setInput 8 "a8",
        Action.setInput 9 "a9"],
       Outcome.undefined) ∧
      (10, "a10") ∈ captureWrites
        ["pin", "-t", "tool", "-o", "out", "--", "a0", "a1", "a2", "a3", "a4", "a5", "a6",
          "a7", "a8", "a9", "a10"] 0 0 ∧
      Action.openOutFile "inscount.out" ∉
        (main false "" "inscount.out" true
          ["pin", "-t", "tool", "-o", "out", "--", "a0", "a1", "a2", "a3", "a4", "a5", "a6",
            "a7", "a8", "a9", "a10"]).1 ∧
      Action.PIN_StartProgram ∉
        (main false "" "inscount.out" true
          ["pin", "-t", "tool", "-o", "out", "--", "a0", "a1", "a2", "a3", "a4", "a5", "a6",
            "a7", "a8", "a9", "a10"]).1 ∧
      (main false "" "inscount.out" true
          ["pin", "-t", "tool", "-o", "out", "--", "a0", "a1", "a2", "a3", "a4", "a5", "a6",
            "a7", "a8", "a9", "a10"]).2 ≠ Outcome.returned 0 := by
  decide

end InsCount
